import Mathlib

/-
  Verification of the analytics core of the Footprint-logger repository.

  The embedded code lives in `src/utils/analysisHelpers.js`, which contains two
  concatenated revisions of the helper library:
    * namespace `V1` models the first revision (lines 1-501), of which only the
      simple half-vs-half `detectTrend` (lines 226-262) is needed here;
    * namespace `V2` models the second revision (lines 503 onward): statistics
      primitives, the linear-regression `detectTrend`, `getTopCategories`,
      the `AnalysisCache` class and the `RateLimiter` class.

  JavaScript numbers are modelled as exact rationals (ℚ) wherever the code only
  performs field arithmetic with nonzero divisors, and as reals (ℝ) where
  `Math.sqrt` is involved.  The one place where a genuine division by zero can
  occur in the source (the half-vs-half trend variant) is modelled with an
  explicit IEEE-style value type `JsNum` carrying Infinity and NaN, so that the
  non-finite outcomes of the JavaScript code are visible in the model.

  JavaScript `Map` objects are modelled as association lists with the standard
  replace-first-or-append update; all reads go through `List.find?` on the key.
-/

/-! ## Association-list model of JavaScript `Map` -/

/-- Lookup in an association list, modelling `Map.get`. -/
def mapGet {β : Type} (m : List (String × β)) (k : String) : Option β :=
  (m.find? (fun kv => kv.1 == k)).map (·.2)

/-- Update in an association list, modelling `Map.set`: replace the first
binding of the key, or append a new binding. -/
def mapSet {β : Type} : List (String × β) → String → β → List (String × β)
  | [], k, e => [(k, e)]
  | kv :: rest, k, e =>
      if kv.1 == k then (k, e) :: rest else kv :: mapSet rest k e

/-- Deletion from an association list, modelling `Map.delete`. -/
def mapDelete {β : Type} (m : List (String × β)) (k : String) : List (String × β) :=
  m.filter (fun kv => !(kv.1 == k))

theorem mapGet_cons_self {β : Type} (k : String) (e : β) (m : List (String × β)) :
    mapGet ((k, e) :: m) k = some e := by
  unfold mapGet
  rw [List.find?_cons_of_pos _ (by simp)]
  rfl

theorem mapGet_cons_neg {β : Type} (kv : String × β) (m : List (String × β)) (k : String)
    (h : ¬ (kv.1 == k) = true) : mapGet (kv :: m) k = mapGet m k := by
  unfold mapGet
  congr 1
  exact List.find?_cons_of_neg m h

theorem mapGet_mapSet_self {β : Type} (m : List (String × β)) (k : String) (e : β) :
    mapGet (mapSet m k e) k = some e := by
  induction m with
  | nil => exact mapGet_cons_self k e []
  | cons kv rest ih =>
      by_cases h : (kv.1 == k) = true
      · have h1 : mapSet (kv :: rest) k e = (k, e) :: rest := by simp [mapSet, h]
        rw [h1]
        exact mapGet_cons_self k e rest
      · have h1 : mapSet (kv :: rest) k e = kv :: mapSet rest k e := by simp [mapSet, h]
        rw [h1, mapGet_cons_neg kv _ k h]
        exact ih

theorem mapGet_mapSet_filter {β : Type} (m : List (String × β)) (k : String) (e : β)
    (q : String × β → Bool) (hq : q (k, e) = true) :
    mapGet ((mapSet m k e).filter q) k = some e := by
  induction m with
  | nil =>
      have h1 : (mapSet [] k e).filter q = [(k, e)] := by simp [mapSet, hq]
      rw [h1]
      exact mapGet_cons_self k e []
  | cons kv rest ih =>
      by_cases h : (kv.1 == k) = true
      · have h1 : mapSet (kv :: rest) k e = (k, e) :: rest := by simp [mapSet, h]
        rw [h1, List.filter_cons_of_pos hq]
        exact mapGet_cons_self k e _
      · have h1 : mapSet (kv :: rest) k e = kv :: mapSet rest k e := by simp [mapSet, h]
        rw [h1, List.filter_cons]
        by_cases hk : q kv = true
        · rw [if_pos hk, mapGet_cons_neg kv _ k h]
          exact ih
        · rw [if_neg hk]
          exact ih

theorem mapGet_mapDelete_self {β : Type} (m : List (String × β)) (k : String) :
    mapGet (mapDelete m k) k = none := by
  have h : (mapDelete m k).find? (fun kv => kv.1 == k) = none := by
    rw [List.find?_eq_none]
    intro kv hkv
    have := List.mem_filter.1 hkv
    simpa using this.2
  simp [mapGet, h]

namespace V2

/-! ## Statistics primitives (analysisHelpers.js second revision) -/

/-- Result shape of `calculateStats` (lines 540-567).  In the source the empty
branch returns an object literal without a `standardDeviation` key, so that
field is modelled as an `Option`; `none` stands for the absent (undefined)
property. -/
structure Stats where
  count : ℕ
  sum : ℚ
  average : ℚ
  min : ℚ
  max : ℚ
  median : ℚ
  standardDeviation : Option ℝ

/-- calculateMedian (lines 572-582): median of an already-sorted array. -/
def calculateMedian (sortedArray : List ℚ) : ℚ :=
  if sortedArray.length = 0 then 0
  else
    let mid := sortedArray.length / 2
    if sortedArray.length % 2 = 0 then
      (sortedArray.getD (mid - 1) 0 + sortedArray.getD mid 0) / 2
    else
      sortedArray.getD mid 0

/-- calculateStandardDeviation (lines 587-594): population standard deviation
(the sum of squared deviations is divided by N, then `Math.sqrt` applied). -/
noncomputable def calculateStandardDeviation (values : List ℚ) (mean : ℚ) : ℝ :=
  Real.sqrt ((((values.map (fun val => (val - mean) ^ 2)).sum / values.length : ℚ) : ℝ))

/-- calculateStats (lines 540-567).  `[...values].sort((a, b) => a - b)` is the
ascending numeric sort, modelled by `List.insertionSort`. -/
noncomputable def calculateStats (values : List ℚ) : Stats :=
  if values = [] then
    { count := 0, sum := 0, average := 0, min := 0, max := 0, median := 0
      standardDeviation := none }
  else
    let sortedValues := values.insertionSort (· ≤ ·)
    let sum := values.sum
    { count := values.length
      sum := sum
      average := sum / values.length
      min := sortedValues.getD 0 0
      max := sortedValues.getD (sortedValues.length - 1) 0
      median := calculateMedian sortedValues
      standardDeviation := some (calculateStandardDeviation values (sum / values.length)) }

/-- calculatePercentageChange (lines 599-602). -/
def calculatePercentageChange (newValue oldValue : ℚ) : ℚ :=
  if oldValue = 0 then (if 0 < newValue then 100 else 0)
  else ((newValue - oldValue) / oldValue) * 100

end V2

/-- C4 counterexample: on empty input the source returns an object literal with
no `standardDeviation` property at all (the empty branch of `calculateStats`
lists only count/sum/average/min/max/median), so the result does not carry a
zero standard deviation as the claim's "full declared shape" requires. -/
theorem calculateStats_empty_counterexample :
    (V2.calculateStats []).standardDeviation ≠ some 0 := by
  simp [V2.calculateStats]

/-- C4 (amended): calculateStats on the empty list returns zero for count, sum,
average, min, max and median, omits the standardDeviation property, and does
not fail. -/
theorem calculateStats_empty_amended :
    (V2.calculateStats []).count = 0 ∧ (V2.calculateStats []).sum = 0 ∧
    (V2.calculateStats []).average = 0 ∧ (V2.calculateStats []).min = 0 ∧
    (V2.calculateStats []).max = 0 ∧ (V2.calculateStats []).median = 0 ∧
    (V2.calculateStats []).standardDeviation = none := by
  simp [V2.calculateStats]

/-- C5: calculatePercentageChange with a zero old value returns 100 exactly when
the new value is positive and 0 otherwise, and with a nonzero old value returns
the relative change times 100. -/
theorem calculatePercentageChange_spec :
    (∀ x : ℚ, V2.calculatePercentageChange x 0 = if 0 < x then 100 else 0) ∧
    (∀ x y : ℚ, y ≠ 0 → V2.calculatePercentageChange x y = ((x - y) / y) * 100) := by
  constructor
  · intro x
    simp [V2.calculatePercentageChange]
  · intro x y hy
    simp [V2.calculatePercentageChange, hy]

/-- C5 witness: a concrete evaluation through both branches of the theorem. -/
theorem calculatePercentageChange_spec_witness :
    V2.calculatePercentageChange 5 0 = 100 ∧ V2.calculatePercentageChange 6 2 = 200 := by
  constructor
  · have h := calculatePercentageChange_spec.1 5
    rw [h]
    norm_num
  · have h := calculatePercentageChange_spec.2 6 2 (by norm_num)
    rw [h]
    norm_num

namespace V2

/-! ## AnalysisCache (lines 1308-1360) -/

/-- Entry stored in the cache: the computed data plus the `Date.now()`
timestamp taken at `set` time.  Times are modelled as integer milliseconds. -/
structure CacheEntry (α : Type) where
  data : α
  timestamp : ℤ

/-- TTL fixed by the constructor: `this.ttl = 5 * 60 * 1000`. -/
def cacheTTL : ℤ := 5 * 60 * 1000

/-- State of an AnalysisCache instance: the underlying `Map`. -/
structure AnalysisCache (α : Type) where
  cache : List (String × CacheEntry α)

/-- generateKey (lines 1314-1317): the params argument is represented by its
`JSON.stringify` serialization. -/
def generateKey (userId type params : String) : String :=
  userId ++ "-" ++ type ++ "-" ++ params

/-- cleanup (lines 1344-1351): delete every entry older than the TTL. -/
def cacheCleanup {α : Type} (m : List (String × CacheEntry α)) (now : ℤ) :
    List (String × CacheEntry α) :=
  m.filter (fun kv => !(decide (cacheTTL < now - kv.2.timestamp)))

/-- get (lines 1319-1329): return the data if present and fresh, otherwise
delete the key and return null.  `now` is the injected `Date.now()` value; the
function returns the result together with the possibly-modified state. -/
def AnalysisCache.get {α : Type} (c : AnalysisCache α) (now : ℤ)
    (userId type params : String) : Option α × AnalysisCache α :=
  match mapGet c.cache (generateKey userId type params) with
  | some cached =>
      if now - cached.timestamp < cacheTTL then (some cached.data, c)
      else (none, ⟨mapDelete c.cache (generateKey userId type params)⟩)
  | none => (none, ⟨mapDelete c.cache (generateKey userId type params)⟩)

/-- set (lines 1331-1342): store the data with the current timestamp, then run
cleanup if the map has grown beyond 1000 entries. -/
def AnalysisCache.set {α : Type} (c : AnalysisCache α) (now : ℤ)
    (userId type params : String) (data : α) : AnalysisCache α :=
  if 1000 < (mapSet c.cache (generateKey userId type params) ⟨data, now⟩).length then
    ⟨cacheCleanup (mapSet c.cache (generateKey userId type params) ⟨data, now⟩) now⟩
  else ⟨mapSet c.cache (generateKey userId type params) ⟨data, now⟩⟩

/-! ## RateLimiter (lines 1596-1636) -/

/-- State of a RateLimiter instance: per-user timestamp lists plus the
constructor parameters (defaults: maxRequests = 100, windowMs = 60000). -/
structure RateLimiter where
  requests : List (String × List ℤ)
  maxRequests : ℕ
  windowMs : ℤ

/-- isAllowed (lines 1604-1621): drop timestamps that fell out of the sliding
window, deny if the remaining count has reached maxRequests, otherwise record
`now` and allow.  Returns the decision together with the new state. -/
def RateLimiter.isAllowed (rl : RateLimiter) (now : ℤ) (userId : String) :
    Bool × RateLimiter :=
  if rl.maxRequests ≤
      (((mapGet rl.requests userId).getD []).filter
        (fun time => decide (now - time < rl.windowMs))).length then
    (false, rl)
  else
    (true,
      { rl with
          requests := mapSet rl.requests userId
            ((((mapGet rl.requests userId).getD []).filter
              (fun time => decide (now - time < rl.windowMs))) ++ [now]) })

/-- Iterate isAllowed over a list of call times for one user, collecting the
returned booleans and threading the state. -/
def runCalls (rl : RateLimiter) (u : String) : List ℤ → List Bool × RateLimiter
  | [] => ([], rl)
  | t :: ts =>
      let r := rl.isAllowed t u
      let rest := runCalls r.2 u ts
      (r.1 :: rest.1, rest.2)

/-- A rate limiter with no recorded requests, as after the constructor. -/
def initialLimiter (maxRequests : ℕ) (windowMs : ℤ) : RateLimiter :=
  ⟨[], maxRequests, windowMs⟩

end V2

/-- C2: setting a cache entry and immediately reading it back (same Date.now())
returns the stored value, even when the insertion pushes the map over 1000
entries and triggers a cleanup sweep; and a get whose entry is older than the
TTL returns null and evicts the key. -/
theorem analysisCache_roundtrip_expiry :
    (∀ (α : Type) (c : V2.AnalysisCache α) (now : ℤ) (u t p : String) (v : α),
      ((c.set now u t p v).get now u t p).1 = some v) ∧
    (∀ (α : Type) (c : V2.AnalysisCache α) (now : ℤ) (u t p : String)
      (e : V2.CacheEntry α),
      mapGet c.cache (V2.generateKey u t p) = some e →
      V2.cacheTTL < now - e.timestamp →
      (c.get now u t p).1 = none ∧
      mapGet ((c.get now u t p).2).cache (V2.generateKey u t p) = none) := by
  constructor
  · intro α c now u t p v
    have hfresh : mapGet ((c.set now u t p v)).cache (V2.generateKey u t p)
        = some ⟨v, now⟩ := by
      unfold V2.AnalysisCache.set
      by_cases hb : 1000 < (mapSet c.cache (V2.generateKey u t p) ⟨v, now⟩).length
      · rw [if_pos hb]
        exact mapGet_mapSet_filter c.cache _ _ _ (by simp [V2.cacheTTL])
      · rw [if_neg hb]
        exact mapGet_mapSet_self c.cache _ _
    unfold V2.AnalysisCache.get
    rw [hfresh]
    simp [V2.cacheTTL]
  · intro α c now u t p e he hold
    have hnot : ¬ now - e.timestamp < V2.cacheTTL := by omega
    unfold V2.AnalysisCache.get
    rw [he]
    dsimp only
    rw [if_neg hnot]
    exact ⟨rfl, mapGet_mapDelete_self c.cache _⟩

/-- C2 witness: a concrete expired entry (stored at time 0, read at five
minutes plus one millisecond) is reported as a miss and evicted. -/
theorem analysisCache_roundtrip_expiry_witness :
    ((V2.AnalysisCache.get (α := ℕ) ⟨[("u1-t1-p1", ⟨42, 0⟩)]⟩ 300001 "u1" "t1" "p1").1 = none ∧
      mapGet ((V2.AnalysisCache.get (α := ℕ) ⟨[("u1-t1-p1", ⟨42, 0⟩)]⟩ 300001 "u1" "t1" "p1").2).cache
        (V2.generateKey "u1" "t1" "p1") = none) ∧
    ((V2.AnalysisCache.set (α := ℕ) ⟨[]⟩ 7 "u1" "t1" "p1" 42).get 7 "u1" "t1" "p1").1 = some 42 := by
  constructor
  · exact analysisCache_roundtrip_expiry.2 ℕ ⟨[("u1-t1-p1", ⟨42, 0⟩)]⟩ 300001 "u1" "t1" "p1"
      ⟨42, 0⟩ (by rfl) (by decide)
  · exact analysisCache_roundtrip_expiry.1 ℕ ⟨[]⟩ 7 "u1" "t1" "p1" 42

/-- Helper: an allowed call on a single-user state keeps every previous
timestamp (all still inside the window) and appends the new one. -/
theorem isAllowed_step (u : String) (mr : ℕ) (w : ℤ) (prev : List ℤ) (now : ℤ)
    (hvalid : ∀ t ∈ prev, now - t < w) (hlen : prev.length < mr) :
    V2.RateLimiter.isAllowed ⟨[(u, prev)], mr, w⟩ now u
      = (true, ⟨[(u, prev ++ [now])], mr, w⟩) := by
  unfold V2.RateLimiter.isAllowed
  have hget : mapGet [(u, prev)] u = some prev := mapGet_cons_self u prev []
  have hfilter : prev.filter (fun time => decide (now - time < w)) = prev :=
    List.filter_eq_self.2 (fun t ht => by simpa using hvalid t ht)
  rw [hget]
  simp only [Option.getD_some]
  rw [hfilter]
  rw [if_neg (by omega)]
  simp [mapSet]

/-- Helper: once the user's valid timestamps reach maxRequests, the call is
denied and the state is untouched. -/
theorem isAllowed_denied (u : String) (mr : ℕ) (w : ℤ) (prev : List ℤ) (now : ℤ)
    (hvalid : ∀ t ∈ prev, now - t < w) (hlen : mr ≤ prev.length) :
    V2.RateLimiter.isAllowed ⟨[(u, prev)], mr, w⟩ now u = (false, ⟨[(u, prev)], mr, w⟩) := by
  unfold V2.RateLimiter.isAllowed
  have hget : mapGet [(u, prev)] u = some prev := mapGet_cons_self u prev []
  have hfilter : prev.filter (fun time => decide (now - time < w)) = prev :=
    List.filter_eq_self.2 (fun t ht => by simpa using hvalid t ht)
  rw [hget]
  simp only [Option.getD_some]
  rw [hfilter]
  rw [if_pos (by omega)]

/-- Helper: a first call on the empty limiter state records the timestamp. -/
theorem isAllowed_first (u : String) (mr : ℕ) (w : ℤ) (now : ℤ) (hmr : 0 < mr) :
    V2.RateLimiter.isAllowed ⟨[], mr, w⟩ now u = (true, ⟨[(u, [now])], mr, w⟩) := by
  unfold V2.RateLimiter.isAllowed
  have hget : mapGet ([] : List (String × List ℤ)) u = none := rfl
  rw [hget]
  simp only [Option.getD_none, List.filter_nil, List.length_nil]
  rw [if_neg (by omega)]
  simp [mapSet]

/-- Helper: running a monotone in-window sequence of calls from a single-user
state appends every call time and answers true throughout. -/
theorem runCalls_aux (u : String) (mr : ℕ) (w : ℤ) (extra : ℤ) :
    ∀ (times prev : List ℤ),
      prev.length + times.length ≤ mr →
      (prev ++ times).Pairwise (· ≤ ·) →
      (∀ t ∈ prev ++ times, t ≤ extra) →
      (∀ t ∈ prev ++ times, extra - t < w) →
      V2.runCalls ⟨[(u, prev)], mr, w⟩ u times
        = (List.replicate times.length true, ⟨[(u, prev ++ times)], mr, w⟩) := by
  intro times
  induction times with
  | nil =>
      intro prev _ _ _ _
      simp [V2.runCalls]
  | cons t ts ih =>
      intro prev hlen hpair hle hwin
      have hvalid : ∀ p ∈ prev, t - p < w := by
        intro p hp
        have hpt : p ≤ t := by
          have := (List.pairwise_append.1 hpair).2.2
          exact this p hp t (by simp)
        have hte : t ≤ extra := hle t (by simp)
        have hpw : extra - p < w := hwin p (List.mem_append_left _ hp)
        omega
      have hstep := isAllowed_step u mr w prev t hvalid (by simp at hlen; omega)
      have hassoc : (prev ++ [t]) ++ ts = prev ++ t :: ts := by simp
      have hih := ih (prev ++ [t])
        (by simp at hlen ⊢; omega)
        (by rw [hassoc]; exact hpair)
        (by rw [hassoc]; exact hle)
        (by rw [hassoc]; exact hwin)
      unfold V2.runCalls
      rw [hstep]
      simp only []
      rw [hih]
      simp [hassoc, List.replicate_succ]

/-- C3: from the empty limiter state, a user making exactly maxRequests calls
inside one sliding window is allowed every time, and one further call still
inside the window of all previous calls is denied. -/
theorem rateLimiter_window_limit (mr : ℕ) (w : ℤ) (u : String)
    (times : List ℤ) (extra : ℤ)
    (hlen : times.length = mr)
    (hpair : times.Pairwise (· ≤ ·))
    (hle : ∀ t ∈ times, t ≤ extra)
    (hwin : ∀ t ∈ times, extra - t < w) :
    (V2.runCalls (V2.initialLimiter mr w) u times).1 = List.replicate mr true ∧
    (((V2.runCalls (V2.initialLimiter mr w) u times).2).isAllowed extra u).1 = false := by
  cases times with
  | nil =>
      have hmr : mr = 0 := by simpa using hlen.symm
      subst hmr
      constructor
      · simp [V2.runCalls]
      · simp [V2.runCalls, V2.initialLimiter, V2.RateLimiter.isAllowed, mapGet]
  | cons t ts =>
      have hrun : V2.runCalls (V2.initialLimiter mr w) u (t :: ts)
          = (List.replicate mr true, ⟨[(u, t :: ts)], mr, w⟩) := by
        have hmr : 0 < mr := by
          simp only [List.length_cons] at hlen
          omega
        have hfirst := isAllowed_first u mr w t hmr
        have haux := runCalls_aux u mr w extra ts [t]
          (by simp only [List.length_cons] at hlen; simp; omega)
          (by simpa using hpair)
          (by simpa using hle)
          (by simpa using hwin)
        unfold V2.runCalls
        unfold V2.initialLimiter
        rw [hfirst]
        simp only []
        rw [haux]
        simp only [List.length_cons] at hlen
        subst hlen
        simp [List.replicate_succ]
      rw [hrun]
      refine ⟨rfl, ?_⟩
      have hdenied := isAllowed_denied u mr w (t :: ts) extra
        (fun x hx => hwin x hx) (by omega)
      rw [hdenied]

/-- C3 witness: with maxRequests 2 and the default 60000 ms window, two calls at
times 0 and 1 are both allowed and a third at time 2 is denied. -/
theorem rateLimiter_window_limit_witness :
    (V2.runCalls (V2.initialLimiter 2 60000) "u" [0, 1]).1 = List.replicate 2 true ∧
    (((V2.runCalls (V2.initialLimiter 2 60000) "u" [0, 1]).2).isAllowed 2 "u").1 = false :=
  rateLimiter_window_limit 2 60000 "u" [0, 1] 2 (by decide) (by decide)
    (by decide) (by decide)

/-- C10: whenever isAllowed denies a request, the limiter state is returned
exactly as it was: no timestamp is recorded for the user and no other entry is
touched. -/
theorem rateLimiter_denied_frame (rl : V2.RateLimiter) (now : ℤ) (u : String)
    (h : (rl.isAllowed now u).1 = false) : (rl.isAllowed now u).2 = rl := by
  unfold V2.RateLimiter.isAllowed at h ⊢
  by_cases hc : rl.maxRequests ≤
      (((mapGet rl.requests u).getD []).filter
        (fun time => decide (now - time < rl.windowMs))).length
  · rw [if_pos hc]
  · rw [if_neg hc] at h
    simp at h

/-- C10 witness: a limiter already at its limit denies the call and its state
is left untouched. -/
theorem rateLimiter_denied_frame_witness :
    (V2.RateLimiter.isAllowed ⟨[("u", [0])], 1, 60000⟩ 0 "u").1 = false ∧
    (V2.RateLimiter.isAllowed ⟨[("u", [0])], 1, 60000⟩ 0 "u").2 = ⟨[("u", [0])], 1, 60000⟩ := by
  have h : (V2.RateLimiter.isAllowed ⟨[("u", [0])], 1, 60000⟩ 0 "u").1 = false := by decide
  exact ⟨h, rateLimiter_denied_frame ⟨[("u", [0])], 1, 60000⟩ 0 "u" h⟩

namespace V2

/-! ## Category aggregation (getTopCategories, lines 733-756) -/

/-- An emission record as used by the category aggregator (spec section 3). -/
structure Emission where
  category : String
  value : ℚ
  timestamp : ℤ

/-- One step of the `categoryTotals[category] = (categoryTotals[category] || 0)
+ emission.value` accumulation, on an insertion-ordered association list
(JavaScript object keys enumerate in insertion order). -/
def addCategoryTotal (acc : List (String × ℚ)) (e : Emission) : List (String × ℚ) :=
  if acc.any (fun kv => kv.1 == e.category) then
    acc.map (fun kv => if kv.1 == e.category then (kv.1, kv.2 + e.value) else kv)
  else acc ++ [(e.category, e.value)]

/-- The `categoryTotals` object built by the forEach loop in getTopCategories. -/
def categoryTotals (emissions : List Emission) : List (String × ℚ) :=
  emissions.foldl addCategoryTotal []

/-- The denominator `Object.values(categoryTotals).reduce((sum, val) => sum +
val, 0)` used for every percentage. -/
def grandTotal (emissions : List Emission) : ℚ :=
  ((categoryTotals emissions).map Prod.snd).sum

/-- Output shape of getTopCategories. -/
structure CatEntry where
  category : String
  total : ℚ
  percentage : ℚ

/-- getTopCategories (lines 733-756): sort the category totals descending
(`.sort(([, a], [, b]) => b - a)`, a stable sort, modelled by insertionSort on
the flipped order), take the first `limit`, and annotate each with its share of
the grand total. -/
def getTopCategories (emissions : List Emission) (limit : ℕ) : List CatEntry :=
  ((((categoryTotals emissions).insertionSort (fun p q => q.2 ≤ p.2)).take limit).map
    (fun p => ⟨p.1, p.2, (p.2 / grandTotal emissions) * 100⟩))

end V2

/-- Helper: every accumulated category total is non-negative when all record
values are. -/
theorem categoryTotals_aux_nonneg :
    ∀ (emissions : List V2.Emission) (acc : List (String × ℚ)),
      (∀ p ∈ acc, 0 ≤ p.2) → (∀ e ∈ emissions, 0 ≤ e.value) →
      ∀ p ∈ emissions.foldl V2.addCategoryTotal acc, 0 ≤ p.2 := by
  intro emissions
  induction emissions with
  | nil =>
      intro acc hacc _
      simpa using hacc
  | cons e es ih =>
      intro acc hacc hval
      simp only [List.foldl_cons]
      refine ih (V2.addCategoryTotal acc e) ?_ (fun x hx => hval x (by simp [hx]))
      intro p hp
      unfold V2.addCategoryTotal at hp
      by_cases hc : acc.any (fun kv => kv.1 == e.category)
      · rw [if_pos hc] at hp
        rcases List.mem_map.1 hp with ⟨q, hq, rfl⟩
        by_cases hqc : (q.1 == e.category) = true
        · rw [if_pos hqc]
          exact add_nonneg (hacc q hq) (hval e (by simp))
        · rw [if_neg hqc]
          exact hacc q hq
      · rw [if_neg hc] at hp
        rcases List.mem_append.1 hp with h1 | h2
        · exact hacc p h1
        · have h3 : p = (e.category, e.value) := by simpa using h2
          rw [h3]
          exact hval e (by simp)

theorem categoryTotals_nonneg (emissions : List V2.Emission)
    (hval : ∀ e ∈ emissions, 0 ≤ e.value) :
    ∀ p ∈ V2.categoryTotals emissions, 0 ≤ p.2 :=
  categoryTotals_aux_nonneg emissions [] (by simp) hval

/-- Helper: the sum of a sublist of non-negative rationals is bounded by the
sum of the whole list. -/
theorem sublist_sum_le (l₁ l₂ : List ℚ) (h : List.Sublist l₁ l₂)
    (hpos : ∀ a ∈ l₂, 0 ≤ a) : l₁.sum ≤ l₂.sum := by
  induction h with
  | slnil => simp
  | cons a hsub ih =>
      rename_i p q
      simp only [List.sum_cons]
      have h0 : 0 ≤ a := hpos a (by simp)
      have h1 := ih (fun x hx => hpos x (by simp [hx]))
      linarith
  | cons₂ a hsub ih =>
      simp only [List.sum_cons]
      have h1 := ih (fun x hx => hpos x (by simp [hx]))
      linarith

/-- Helper: summing `p.2 / g * c` over a list factors through the sum of the
second components. -/
theorem sum_map_div_mul (l : List (String × ℚ)) (g c : ℚ) :
    (l.map (fun p => (p.2 / g) * c)).sum = (((l.map Prod.snd).sum) / g) * c := by
  induction l with
  | nil => simp
  | cons p ps ih =>
      simp only [List.map_cons, List.sum_cons, ih]
      ring

/-- C6 (amended): every entry returned by getTopCategories carries percentage =
total / grandTotal * 100; the top-n totals sum to at most the sum of all
category totals; and when the limit covers the whole category set and the
grand total is positive the percentages sum to exactly 100.  (The original
claim, without the positive-grand-total proviso, fails on all-zero records.) -/
theorem getTopCategories_spec (emissions : List V2.Emission) (limit : ℕ)
    (hval : ∀ e ∈ emissions, 0 ≤ e.value) :
    (∀ c ∈ V2.getTopCategories emissions limit,
        c.percentage = (c.total / V2.grandTotal emissions) * 100) ∧
    ((V2.getTopCategories emissions limit).map V2.CatEntry.total).sum
        ≤ ((V2.categoryTotals emissions).map Prod.snd).sum ∧
    ((V2.categoryTotals emissions).length ≤ limit → 0 < V2.grandTotal emissions →
      ((V2.getTopCategories emissions limit).map V2.CatEntry.percentage).sum = 100) := by
  have hperm : List.Perm
      ((V2.categoryTotals emissions).insertionSort (fun p q => q.2 ≤ p.2))
      (V2.categoryTotals emissions) :=
    List.perm_insertionSort _ _
  refine ⟨?_, ?_, ?_⟩
  · intro c hc
    rcases List.mem_map.1 hc with ⟨p, hp, rfl⟩
    rfl
  · have hmap : (V2.getTopCategories emissions limit).map V2.CatEntry.total
        = ((((V2.categoryTotals emissions).insertionSort
            (fun p q => q.2 ≤ p.2)).take limit).map Prod.snd) := by
      unfold V2.getTopCategories
      rw [List.map_map]
      rfl
    rw [hmap]
    have hsub : List.Sublist
        (((((V2.categoryTotals emissions).insertionSort
          (fun p q => q.2 ≤ p.2)).take limit)).map Prod.snd)
        ((((V2.categoryTotals emissions).insertionSort
          (fun p q => q.2 ≤ p.2))).map Prod.snd) :=
      (List.take_sublist _ _).map Prod.snd
    have hnonneg : ∀ a ∈ (((V2.categoryTotals emissions).insertionSort
        (fun p q => q.2 ≤ p.2)).map Prod.snd), 0 ≤ a := by
      intro a ha
      rcases List.mem_map.1 ha with ⟨p, hp, rfl⟩
      exact categoryTotals_nonneg emissions hval p (hperm.mem_iff.1 hp)
    have hle := sublist_sum_le _ _ hsub hnonneg
    have hsum : ((((V2.categoryTotals emissions).insertionSort
        (fun p q => q.2 ≤ p.2))).map Prod.snd).sum
        = ((V2.categoryTotals emissions).map Prod.snd).sum :=
      (hperm.map Prod.snd).sum_eq
    linarith
  · intro hlim hg
    have hlen : ((V2.categoryTotals emissions).insertionSort
        (fun p q => q.2 ≤ p.2)).length ≤ limit := by
      rw [hperm.length_eq]
      exact hlim
    have htake : (((V2.categoryTotals emissions).insertionSort
        (fun p q => q.2 ≤ p.2)).take limit)
        = ((V2.categoryTotals emissions).insertionSort (fun p q => q.2 ≤ p.2)) :=
      List.take_of_length_le hlen
    have hmap : (V2.getTopCategories emissions limit).map V2.CatEntry.percentage
        = (((V2.categoryTotals emissions).insertionSort
            (fun p q => q.2 ≤ p.2)).map (fun p => (p.2 / V2.grandTotal emissions) * 100)) := by
      unfold V2.getTopCategories
      rw [htake, List.map_map]
      rfl
    rw [hmap, sum_map_div_mul]
    rw [(hperm.map Prod.snd).sum_eq]
    have : ((V2.categoryTotals emissions).map Prod.snd).sum = V2.grandTotal emissions := rfl
    rw [this, div_self (ne_of_gt hg)]
    norm_num

/-- C6 counterexample: on a single record whose value is 0 the grand total is
0, so the percentage involves a division by zero (NaN in JavaScript, 0 in this
rational model); either way the percentages over the full category set do not
sum to (approximately) 100 even though the record values are non-negative. -/
theorem getTopCategories_zero_counterexample :
    (∀ e ∈ [(⟨"A", 0, 0⟩ : V2.Emission)], 0 ≤ e.value) ∧
    ((V2.getTopCategories [⟨"A", 0, 0⟩] 1).map V2.CatEntry.percentage).sum ≠ 100 := by
  constructor
  · intro e he
    simp at he
    rw [he]
  · have htot : V2.categoryTotals [⟨"A", 0, 0⟩] = [("A", 0)] := rfl
    have hg : V2.grandTotal [⟨"A", 0, 0⟩] = 0 := by
      simp [V2.grandTotal, htot]
    have hsum : ((V2.getTopCategories [⟨"A", 0, 0⟩] 1).map V2.CatEntry.percentage).sum = 0 := by
      simp [V2.getTopCategories, htot, hg, List.insertionSort, List.orderedInsert]
    rw [hsum]
    norm_num

/-- C6 witness: two records in distinct categories with positive values; the
top-2 percentages sum to exactly 100 and the totals bound holds. -/
theorem getTopCategories_spec_witness :
    ((V2.getTopCategories [⟨"A", 10, 0⟩, ⟨"B", 5, 1⟩] 2).map V2.CatEntry.total).sum
        ≤ ((V2.categoryTotals [⟨"A", 10, 0⟩, ⟨"B", 5, 1⟩]).map Prod.snd).sum ∧
    ((V2.getTopCategories [⟨"A", 10, 0⟩, ⟨"B", 5, 1⟩] 2).map V2.CatEntry.percentage).sum = 100 := by
  have htot : V2.categoryTotals [⟨"A", 10, 0⟩, ⟨"B", 5, 1⟩] = [("A", 10), ("B", 5)] := rfl
  have h := getTopCategories_spec [⟨"A", 10, 0⟩, ⟨"B", 5, 1⟩] 2
    (by intro e he; fin_cases he <;> norm_num)
  refine ⟨h.2.1, h.2.2 ?_ ?_⟩
  · rw [htot]
    norm_num
  · have hg : V2.grandTotal [⟨"A", 10, 0⟩, ⟨"B", 5, 1⟩] = 15 := by
      simp [V2.grandTotal, htot]
      norm_num
    rw [hg]
    norm_num

/-! ## IEEE-style number model for the unguarded division in the first-revision
half-vs-half trend detector -/

/-- A JavaScript number outcome: a finite (rational) value, one of the two
infinities, or NaN.  Only the operations the embedded code performs on a
possibly non-finite intermediate are modelled. -/
inductive JsNum where
  | fin (q : ℚ)
  | posInf
  | negInf
  | nan
  deriving DecidableEq

/-- Whether the value is finite. -/
def JsNum.isFinite : JsNum → Bool
  | .fin _ => true
  | _ => false

/-- JavaScript division of two finite numbers: `a / 0` is `±Infinity` by the
sign of `a`, and `0 / 0` is NaN. -/
def jsDiv (a b : ℚ) : JsNum :=
  if b = 0 then
    if 0 < a then .posInf else if a < 0 then .negInf else .nan
  else .fin (a / b)

/-- JavaScript multiplication of a possibly non-finite number by a finite one:
infinities keep or flip sign (and `Infinity * 0` is NaN); NaN is absorbing. -/
def jsMul (x : JsNum) (c : ℚ) : JsNum :=
  match x with
  | .fin q => .fin (q * c)
  | .posInf => if 0 < c then .posInf else if c < 0 then .negInf else .nan
  | .negInf => if 0 < c then .negInf else if c < 0 then .posInf else .nan
  | .nan => .nan

/-- JavaScript `Math.abs`: both infinities map to `+Infinity`, NaN stays NaN. -/
def jsAbs : JsNum → JsNum
  | .fin q => .fin |q|
  | .posInf => .posInf
  | .negInf => .posInf
  | .nan => .nan

/-- JavaScript comparison `x < c` for a finite right operand: false whenever
`x` is NaN or `+Infinity`, true for `-Infinity`. -/
def jsLt (x : JsNum) (c : ℚ) : Bool :=
  match x with
  | .fin q => decide (q < c)
  | .posInf => false
  | .negInf => true
  | .nan => false

namespace V1

/-! ## Simple half-vs-half detectTrend (first revision, lines 226-262) -/

/-- Result of the simple detectTrend: the insufficient-data object (which only
carries a message) or the computed object.  The presentation-only `message`
strings are not modelled. -/
inductive SimpleTrendResult where
  | insufficientData
  | computed (trend : String) (change : ℚ) (percentChange : JsNum)
  deriving DecidableEq

/-- Average of the first half of the series, `firstHalf.reduce(..)/
firstHalf.length` with `midPoint = Math.floor(values.length / 2)`. -/
def firstHalfAvg (values : List ℚ) : ℚ :=
  (values.take (values.length / 2)).sum / ((values.take (values.length / 2)).length : ℚ)

/-- Average of the second half of the series. -/
def secondHalfAvg (values : List ℚ) : ℚ :=
  (values.drop (values.length / 2)).sum / ((values.drop (values.length / 2)).length : ℚ)

/-- detectTrend, first revision (lines 226-262): split the series at the
midpoint, compare the half averages, and classify by the percent change.  The
division `change / firstAverage` is not guarded, so the percent change is
computed in the IEEE-style `JsNum` model. -/
def detectTrend (values : List ℚ) : SimpleTrendResult :=
  if values.length < 4 then .insufficientData
  else
    .computed
      (if jsLt (jsAbs (jsMul (jsDiv (secondHalfAvg values - firstHalfAvg values)
            (firstHalfAvg values)) 100)) 5 then "stable"
       else if 0 < secondHalfAvg values - firstHalfAvg values then "increasing"
       else "decreasing")
      (secondHalfAvg values - firstHalfAvg values)
      (jsAbs (jsMul (jsDiv (secondHalfAvg values - firstHalfAvg values)
        (firstHalfAvg values)) 100))

end V1

/-- C9 counterexample: on `[0, 0, 4, 4]` the first-half average is 0 and the
halves differ, so the unguarded division yields `4 / 0 = Infinity`; the
returned percentChange is `+Infinity`, a non-finite value, contradicting the
claim that the result is finite and neutral-defaulted. -/
theorem detectTrendSimple_infinity_counterexample :
    V1.detectTrend [0, 0, 4, 4] = .computed "increasing" 4 JsNum.posInf ∧
    JsNum.isFinite JsNum.posInf = false := by
  refine ⟨?_, rfl⟩
  have hfa : V1.firstHalfAvg [0, 0, 4, 4] = 0 := by
    simp [V1.firstHalfAvg]
  have hsa : V1.secondHalfAvg [0, 0, 4, 4] = 4 := by
    simp only [V1.secondHalfAvg]
    norm_num
  unfold V1.detectTrend
  rw [if_neg (by simp)]
  rw [hfa, hsa]
  have hdiv : jsDiv (4 - 0) 0 = JsNum.posInf := by
    unfold jsDiv
    rw [if_pos rfl, if_pos (by norm_num)]
  rw [hdiv]
  have hmul : jsMul JsNum.posInf 100 = JsNum.posInf := by
    simp only [jsMul]
    rw [if_pos (by norm_num)]
  rw [hmul]
  have habs : jsAbs JsNum.posInf = JsNum.posInf := rfl
  rw [habs]
  have hlt : jsLt JsNum.posInf 5 = false := rfl
  rw [if_neg (by rw [hlt]; exact Bool.false_ne_true)]
  rw [if_pos (by norm_num)]
  norm_num

/-- C9 (amended): for every series of length at least 4 whose first-half
average is 0, the simple detectTrend still returns a computed result object
without throwing, but its percentChange is non-finite (an infinity when the
half averages differ, NaN when they coincide) rather than a finite neutral
default. -/
theorem detectTrendSimple_zero_first_half (values : List ℚ)
    (h4 : 4 ≤ values.length) (h0 : V1.firstHalfAvg values = 0) :
    ∃ tr ch pc, V1.detectTrend values = .computed tr ch pc ∧ pc.isFinite = false := by
  have hres : V1.detectTrend values = .computed
      (if jsLt (jsAbs (jsMul (jsDiv (V1.secondHalfAvg values - V1.firstHalfAvg values)
            (V1.firstHalfAvg values)) 100)) 5 then "stable"
       else if 0 < V1.secondHalfAvg values - V1.firstHalfAvg values then "increasing"
       else "decreasing")
      (V1.secondHalfAvg values - V1.firstHalfAvg values)
      (jsAbs (jsMul (jsDiv (V1.secondHalfAvg values - V1.firstHalfAvg values)
        (V1.firstHalfAvg values)) 100)) := by
    unfold V1.detectTrend
    rw [if_neg (by omega)]
  refine ⟨_, _, _, hres, ?_⟩
  rw [h0]
  rcases lt_trichotomy (V1.secondHalfAvg values - 0) 0 with hneg | hzero | hpos
  · have hdiv : jsDiv (V1.secondHalfAvg values - 0) 0 = .negInf := by
      unfold jsDiv
      rw [if_pos rfl, if_neg (by linarith), if_pos hneg]
    rw [hdiv]
    have hmul : jsMul JsNum.negInf 100 = JsNum.negInf := by
      simp only [jsMul]
      rw [if_pos (by norm_num)]
    rw [hmul]
    rfl
  · have hdiv : jsDiv (V1.secondHalfAvg values - 0) 0 = .nan := by
      unfold jsDiv
      rw [if_pos rfl, if_neg (by linarith), if_neg (by linarith)]
    rw [hdiv]
    rfl
  · have hdiv : jsDiv (V1.secondHalfAvg values - 0) 0 = .posInf := by
      unfold jsDiv
      rw [if_pos rfl, if_pos hpos]
    rw [hdiv]
    have hmul : jsMul JsNum.posInf 100 = JsNum.posInf := by
      simp only [jsMul]
      rw [if_pos (by norm_num)]
    rw [hmul]
    rfl

/-- C9 witness: the concrete series `[0, 0, 4, 4]` satisfies both hypotheses
and exhibits the non-finite percentChange. -/
theorem detectTrendSimple_zero_first_half_witness :
    ∃ tr ch pc, V1.detectTrend [0, 0, 4, 4] = .computed tr ch pc ∧ pc.isFinite = false :=
  detectTrendSimple_zero_first_half [0, 0, 4, 4] (by norm_num)
    (by simp [V1.firstHalfAvg])

/-- Helper: in a sorted list, getD is monotone in the index. -/
theorem sorted_getD_le (L : List ℚ) (hs : L.Sorted (· ≤ ·)) (i j : ℕ)
    (hij : i ≤ j) (hj : j < L.length) : L.getD i 0 ≤ L.getD j 0 := by
  have hi : i < L.length := lt_of_le_of_lt hij hj
  rw [List.getD_eq_getElem L 0 hi, List.getD_eq_getElem L 0 hj]
  rcases eq_or_lt_of_le hij with heq | hlt
  · subst heq
    exact le_refl _
  · have := List.pairwise_iff_get.1 hs ⟨i, hi⟩ ⟨j, hj⟩ hlt
    simpa using this

/-- C7: on a non-empty sequence, calculateStats returns average = sum / count;
the median lies between min and max; the median is the average of the two
middle elements of the sorted sequence for even length (the middle element for
odd length); and standardDeviation is the population standard deviation (sum
of squared deviations from the mean divided by N, then square root). -/
theorem calculateStats_nonempty_spec (values : List ℚ) (hne : values ≠ []) :
    (V2.calculateStats values).average
        = (V2.calculateStats values).sum / ((V2.calculateStats values).count : ℚ) ∧
    (V2.calculateStats values).min ≤ (V2.calculateStats values).median ∧
    (V2.calculateStats values).median ≤ (V2.calculateStats values).max ∧
    (V2.calculateStats values).median
        = (if values.length % 2 = 0 then
            ((values.insertionSort (· ≤ ·)).getD (values.length / 2 - 1) 0
              + (values.insertionSort (· ≤ ·)).getD (values.length / 2) 0) / 2
          else (values.insertionSort (· ≤ ·)).getD (values.length / 2) 0) ∧
    (V2.calculateStats values).standardDeviation
        = some (Real.sqrt ((((values.map
            (fun v => (v - values.sum / values.length) ^ 2)).sum / values.length : ℚ) : ℝ))) := by
  have hperm := List.perm_insertionSort (· ≤ ·) values
  have hlen : (values.insertionSort (· ≤ ·)).length = values.length := hperm.length_eq
  have hsorted : (values.insertionSort (· ≤ ·)).Sorted (· ≤ ·) :=
    List.sorted_insertionSort _ _
  have hvpos : 0 < values.length := List.length_pos.2 hne
  have hLpos : 0 < (values.insertionSort (· ≤ ·)).length := by omega
  have hstats : V2.calculateStats values =
      { count := values.length
        sum := values.sum
        average := values.sum / values.length
        min := (values.insertionSort (· ≤ ·)).getD 0 0
        max := (values.insertionSort (· ≤ ·)).getD ((values.insertionSort (· ≤ ·)).length - 1) 0
        median := V2.calculateMedian (values.insertionSort (· ≤ ·))
        standardDeviation :=
          some (V2.calculateStandardDeviation values (values.sum / values.length)) } := by
    unfold V2.calculateStats
    rw [if_neg hne]
  have hmed : V2.calculateMedian (values.insertionSort (· ≤ ·))
      = (if values.length % 2 = 0 then
          ((values.insertionSort (· ≤ ·)).getD (values.length / 2 - 1) 0
            + (values.insertionSort (· ≤ ·)).getD (values.length / 2) 0) / 2
        else (values.insertionSort (· ≤ ·)).getD (values.length / 2) 0) := by
    unfold V2.calculateMedian
    rw [if_neg (by omega)]
    rw [hlen]
  have hminmax : (if values.length % 2 = 0 then
        ((values.insertionSort (· ≤ ·)).getD (values.length / 2 - 1) 0
          + (values.insertionSort (· ≤ ·)).getD (values.length / 2) 0) / 2
      else (values.insertionSort (· ≤ ·)).getD (values.length / 2) 0)
        ≥ (values.insertionSort (· ≤ ·)).getD 0 0 ∧
      (if values.length % 2 = 0 then
        ((values.insertionSort (· ≤ ·)).getD (values.length / 2 - 1) 0
          + (values.insertionSort (· ≤ ·)).getD (values.length / 2) 0) / 2
      else (values.insertionSort (· ≤ ·)).getD (values.length / 2) 0)
        ≤ (values.insertionSort (· ≤ ·)).getD
            ((values.insertionSort (· ≤ ·)).length - 1) 0 := by
    have hmidlt : values.length / 2 < (values.insertionSort (· ≤ ·)).length := by
      rw [hlen]
      exact Nat.div_lt_self hvpos (by norm_num)
    have hlastlt : (values.insertionSort (· ≤ ·)).length - 1
        < (values.insertionSort (· ≤ ·)).length := by omega
    have hlo1 := sorted_getD_le _ hsorted 0 (values.length / 2 - 1)
      (by omega) (by omega)
    have hlo2 := sorted_getD_le _ hsorted 0 (values.length / 2) (by omega) hmidlt
    have hhi1 := sorted_getD_le _ hsorted (values.length / 2 - 1)
      ((values.insertionSort (· ≤ ·)).length - 1) (by omega) hlastlt
    have hhi2 := sorted_getD_le _ hsorted (values.length / 2)
      ((values.insertionSort (· ≤ ·)).length - 1) (by omega) hlastlt
    by_cases hpar : values.length % 2 = 0
    · rw [if_pos hpar]
      constructor
      · linarith
      · linarith
    · rw [if_neg hpar]
      exact ⟨hlo2, hhi2⟩
  rw [hstats]
  refine ⟨rfl, ?_, ?_, ?_, ?_⟩
  · simpa [hmed] using hminmax.1
  · simpa [hmed] using hminmax.2
  · simpa using hmed
  · rfl

/-- C7 witness: the theorem applied to the concrete non-empty series [1, 3]. -/
theorem calculateStats_nonempty_spec_witness :
    (V2.calculateStats [1, 3]).average
        = (V2.calculateStats [1, 3]).sum / ((V2.calculateStats [1, 3]).count : ℚ) ∧
    (V2.calculateStats [1, 3]).min ≤ (V2.calculateStats [1, 3]).median ∧
    (V2.calculateStats [1, 3]).median ≤ (V2.calculateStats [1, 3]).max ∧
    (V2.calculateStats [1, 3]).median
        = (if ([1, 3] : List ℚ).length % 2 = 0 then
            ((([1, 3] : List ℚ).insertionSort (· ≤ ·)).getD (([1, 3] : List ℚ).length / 2 - 1) 0
              + (([1, 3] : List ℚ).insertionSort (· ≤ ·)).getD (([1, 3] : List ℚ).length / 2) 0) / 2
          else (([1, 3] : List ℚ).insertionSort (· ≤ ·)).getD (([1, 3] : List ℚ).length / 2) 0) ∧
    (V2.calculateStats [1, 3]).standardDeviation
        = some (Real.sqrt (((([1, 3] : List ℚ).map
            (fun v => (v - ([1, 3] : List ℚ).sum / ([1, 3] : List ℚ).length) ^ 2)).sum
              / ([1, 3] : List ℚ).length : ℚ) : ℝ)) :=
  calculateStats_nonempty_spec [1, 3] (by simp)

namespace V2

/-! ## Linear-regression detectTrend (second revision, lines 778-842)

The source computes, over `values` with 1-based x indices:
sumX and sumX2 by closed formulas, sumY and sumXY by reduction, the OLS slope
and intercept, and the Pearson correlation from the centred sums, guarding the
division when `denominatorX * denominatorY` is not positive.  Each local
`const` of the source function is modelled as a `trend...` definition; the
reductions over `values` are written as `Finset.range` sums over the indices
(JavaScript `reduce` is the same sum, associated to the left). -/

/-- Output object of the regression detectTrend.  The insufficient-data branch
carries only trend and confidence in the source, so the regression fields are
optional. -/
structure TrendResult where
  trend : String
  slope : Option ℝ
  intercept : Option ℝ
  correlation : Option ℝ
  confidence : ℝ

/-- Local `sumX = (n * (n + 1)) / 2`. -/
noncomputable def trendSumX (values : List ℝ) : ℝ :=
  ((values.length : ℝ) * ((values.length : ℝ) + 1)) / 2

/-- Local `sumY = values.reduce((sum, val) => sum + val, 0)`. -/
noncomputable def trendSumY (values : List ℝ) : ℝ := values.sum

/-- Local `sumXY = values.reduce((sum, val, index) => sum + val * (index + 1), 0)`. -/
noncomputable def trendSumXY (values : List ℝ) : ℝ :=
  ∑ i in Finset.range values.length, values.getD i 0 * ((i : ℝ) + 1)

/-- Local `sumX2 = (n * (n + 1) * (2 * n + 1)) / 6`. -/
noncomputable def trendSumX2 (values : List ℝ) : ℝ :=
  ((values.length : ℝ) * ((values.length : ℝ) + 1) * (2 * (values.length : ℝ) + 1)) / 6

/-- Local `slope = (n * sumXY - sumX * sumY) / (n * sumX2 - sumX * sumX)`. -/
noncomputable def trendSlope (values : List ℝ) : ℝ :=
  ((values.length : ℝ) * trendSumXY values - trendSumX values * trendSumY values) /
    ((values.length : ℝ) * trendSumX2 values - trendSumX values * trendSumX values)

/-- Local `intercept = (sumY - slope * sumX) / n`. -/
noncomputable def trendIntercept (values : List ℝ) : ℝ :=
  (trendSumY values - trendSlope values * trendSumX values) / (values.length : ℝ)

/-- Local `meanX = sumX / n`. -/
noncomputable def trendMeanX (values : List ℝ) : ℝ := trendSumX values / (values.length : ℝ)

/-- Local `meanY = sumY / n`. -/
noncomputable def trendMeanY (values : List ℝ) : ℝ := trendSumY values / (values.length : ℝ)

/-- Local `numerator = values.reduce((sum, val, index) => sum + (index + 1 -
meanX) * (val - meanY), 0)`. -/
noncomputable def trendNumerator (values : List ℝ) : ℝ :=
  ∑ i in Finset.range values.length,
    (((i : ℝ) + 1) - trendMeanX values) * (values.getD i 0 - trendMeanY values)

/-- The sum inside `denominatorX` (variance numerator of the index sequence). -/
noncomputable def trendDenomXsq (values : List ℝ) : ℝ :=
  ∑ i in Finset.range values.length, (((i : ℝ) + 1) - trendMeanX values) ^ 2

/-- The sum inside `denominatorY` (variance numerator of the value sequence). -/
noncomputable def trendDenomYsq (values : List ℝ) : ℝ :=
  ∑ i in Finset.range values.length, (values.getD i 0 - trendMeanY values) ^ 2

/-- Local `denominatorX = Math.sqrt(...)`. -/
noncomputable def trendDenominatorX (values : List ℝ) : ℝ :=
  Real.sqrt (trendDenomXsq values)

/-- Local `denominatorY = Math.sqrt(...)`. -/
noncomputable def trendDenominatorY (values : List ℝ) : ℝ :=
  Real.sqrt (trendDenomYsq values)

/-- Local `correlation = denominatorX * denominatorY > 0 ? numerator /
(denominatorX * denominatorY) : 0`. -/
noncomputable def trendCorrelation (values : List ℝ) : ℝ :=
  if 0 < trendDenominatorX values * trendDenominatorY values then
    trendNumerator values / (trendDenominatorX values * trendDenominatorY values)
  else 0

/-- Local `confidence = Math.abs(correlation) * 100`. -/
noncomputable def trendConfidence (values : List ℝ) : ℝ :=
  |trendCorrelation values| * 100

/-- detectTrend, second revision (lines 778-842); the source default for
minDataPoints is 3 and callers in the claims use it.  The presentation-only
`message` string is not modelled. -/
noncomputable def detectTrend (values : List ℝ) (minDataPoints : ℕ) : TrendResult :=
  if values.length < minDataPoints then
    { trend := "insufficient_data", slope := none, intercept := none
      correlation := none, confidence := 0 }
  else
    { trend :=
        if |trendSlope values| < 0.1 then "stable"
        else if 0 < trendSlope values then "increasing" else "decreasing"
      slope := some (trendSlope values)
      intercept := some (trendIntercept values)
      correlation := some (trendCorrelation values)
      confidence := trendConfidence values }

/-- An arithmetic series of length n: a, a + d, a + 2d, ... -/
noncomputable def arithSeq (a d : ℝ) (n : ℕ) : List ℝ :=
  (List.range n).map (fun i : ℕ => a + d * (i : ℝ))

end V2

/-- C8: whenever the centred square-sum of the index sequence or of the value
sequence is zero (zero variance), the guarded ternary defines the correlation
to be 0, so the confidence is 0 rather than NaN or an error. -/
theorem detectTrend_zero_variance (values : List ℝ) (minDataPoints : ℕ)
    (hlen : ¬ values.length < minDataPoints)
    (h0 : V2.trendDenomXsq values = 0 ∨ V2.trendDenomYsq values = 0) :
    (V2.detectTrend values minDataPoints).correlation = some 0 ∧
    (V2.detectTrend values minDataPoints).confidence = 0 := by
  have hprod : V2.trendDenominatorX values * V2.trendDenominatorY values = 0 := by
    rcases h0 with h | h
    · unfold V2.trendDenominatorX
      rw [h, Real.sqrt_zero, zero_mul]
    · unfold V2.trendDenominatorY
      rw [h, Real.sqrt_zero, mul_zero]
  have hcorr : V2.trendCorrelation values = 0 := by
    unfold V2.trendCorrelation
    rw [hprod]
    rw [if_neg (lt_irrefl 0)]
  have hconf : V2.trendConfidence values = 0 := by
    unfold V2.trendConfidence
    rw [hcorr]
    simp
  unfold V2.detectTrend
  rw [if_neg hlen]
  exact ⟨by rw [hcorr], by rw [hconf]⟩

/-- C8 witness: a constant series [5, 5, 5, 5] has zero value variance, and
the regression detector reports correlation 0 and confidence 0 on it. -/
theorem detectTrend_zero_variance_witness :
    (V2.detectTrend [5, 5, 5, 5] 3).correlation = some 0 ∧
    (V2.detectTrend [5, 5, 5, 5] 3).confidence = 0 := by
  have hmean : V2.trendMeanY [5, 5, 5, 5] = 5 := by
    unfold V2.trendMeanY V2.trendSumY
    norm_num
  have hy : V2.trendDenomYsq [5, 5, 5, 5] = 0 := by
    unfold V2.trendDenomYsq
    rw [hmean]
    simp [Finset.sum_range_succ]
  exact detectTrend_zero_variance [5, 5, 5, 5] 3 (by simp) (Or.inr hy)

/-- Helper: Gauss sum over range n, cast to the reals. -/
theorem sum_range_cast (n : ℕ) :
    ∑ i in Finset.range n, (i : ℝ) = (n : ℝ) * ((n : ℝ) - 1) / 2 := by
  induction n with
  | zero => simp
  | succ k ih =>
      rw [Finset.sum_range_succ, ih]
      push_cast
      ring

/-- Helper: sum of squares over range n, cast to the reals. -/
theorem sum_range_sq_cast (n : ℕ) :
    ∑ i in Finset.range n, (i : ℝ) ^ 2
      = (n : ℝ) * ((n : ℝ) - 1) * (2 * (n : ℝ) - 1) / 6 := by
  induction n with
  | zero => simp
  | succ k ih =>
      rw [Finset.sum_range_succ, ih]
      push_cast
      ring

theorem length_arithSeq (a d : ℝ) (n : ℕ) : (V2.arithSeq a d n).length = n := by
  simp [V2.arithSeq]

theorem arithSeq_getD (a d : ℝ) {n i : ℕ} (hi : i < n) :
    (V2.arithSeq a d n).getD i 0 = a + d * (i : ℝ) := by
  unfold V2.arithSeq
  rw [List.getD_eq_getElem _ _ (by simpa using hi)]
  simp

theorem arithSeq_sum (a d : ℝ) (n : ℕ) :
    (V2.arithSeq a d n).sum = (n : ℝ) * a + d * ((n : ℝ) * ((n : ℝ) - 1) / 2) := by
  induction n with
  | zero => simp [V2.arithSeq]
  | succ k ih =>
      unfold V2.arithSeq at ih ⊢
      rw [List.range_succ, List.map_append, List.sum_append]
      simp only [List.map_cons, List.map_nil, List.sum_cons, List.sum_nil]
      rw [ih]
      push_cast
      ring

theorem trendSumX_arith (a d : ℝ) (n : ℕ) :
    V2.trendSumX (V2.arithSeq a d n) = (n : ℝ) * ((n : ℝ) + 1) / 2 := by
  unfold V2.trendSumX
  rw [length_arithSeq]

theorem trendSumX2_arith (a d : ℝ) (n : ℕ) :
    V2.trendSumX2 (V2.arithSeq a d n)
      = (n : ℝ) * ((n : ℝ) + 1) * (2 * (n : ℝ) + 1) / 6 := by
  unfold V2.trendSumX2
  rw [length_arithSeq]

theorem trendSumY_arith (a d : ℝ) (n : ℕ) :
    V2.trendSumY (V2.arithSeq a d n)
      = (n : ℝ) * a + d * ((n : ℝ) * ((n : ℝ) - 1) / 2) := by
  unfold V2.trendSumY
  exact arithSeq_sum a d n

theorem trendSumXY_arith (a d : ℝ) (n : ℕ) :
    V2.trendSumXY (V2.arithSeq a d n)
      = a * ((n : ℝ) * ((n : ℝ) - 1) / 2) + (n : ℝ) * a
        + d * ((n : ℝ) * ((n : ℝ) - 1) * (2 * (n : ℝ) - 1) / 6)
        + d * ((n : ℝ) * ((n : ℝ) - 1) / 2) := by
  unfold V2.trendSumXY
  rw [length_arithSeq]
  have hcong : ∀ i ∈ Finset.range n,
      (V2.arithSeq a d n).getD i 0 * ((i : ℝ) + 1)
        = a * (i : ℝ) + a + (d * (i : ℝ) ^ 2 + d * (i : ℝ)) := by
    intro i hi
    rw [arithSeq_getD a d (Finset.mem_range.1 hi)]
    ring
  rw [Finset.sum_congr rfl hcong]
  simp only [Finset.sum_add_distrib, ← Finset.mul_sum, Finset.sum_const,
    Finset.card_range, sum_range_cast, sum_range_sq_cast, nsmul_eq_mul]
  ring

theorem trendMeanX_arith (a d : ℝ) (n : ℕ) (hn : 0 < n) :
    V2.trendMeanX (V2.arithSeq a d n) = ((n : ℝ) + 1) / 2 := by
  have hne : (n : ℝ) ≠ 0 := Nat.cast_ne_zero.2 (by omega)
  unfold V2.trendMeanX
  rw [trendSumX_arith, length_arithSeq]
  field_simp
  ring

theorem trendMeanY_arith (a d : ℝ) (n : ℕ) (hn : 0 < n) :
    V2.trendMeanY (V2.arithSeq a d n) = a + d * (((n : ℝ) - 1) / 2) := by
  have hne : (n : ℝ) ≠ 0 := Nat.cast_ne_zero.2 (by omega)
  unfold V2.trendMeanY
  rw [trendSumY_arith, length_arithSeq]
  field_simp
  ring

theorem trendDenomXsq_arith (a d : ℝ) (n : ℕ) (hn : 0 < n) :
    V2.trendDenomXsq (V2.arithSeq a d n) = (n : ℝ) * ((n : ℝ) ^ 2 - 1) / 12 := by
  unfold V2.trendDenomXsq
  rw [length_arithSeq, trendMeanX_arith a d n hn]
  have hcong : ∀ i ∈ Finset.range n,
      (((i : ℝ) + 1) - ((n : ℝ) + 1) / 2) ^ 2
        = (i : ℝ) ^ 2 + ((1 - (n : ℝ)) * (i : ℝ) + ((1 - (n : ℝ)) / 2) ^ 2) := by
    intro i hi
    ring
  rw [Finset.sum_congr rfl hcong]
  simp only [Finset.sum_add_distrib, ← Finset.mul_sum, Finset.sum_const,
    Finset.card_range, sum_range_cast, sum_range_sq_cast, nsmul_eq_mul]
  ring

theorem trendNumerator_arith (a d : ℝ) (n : ℕ) (hn : 0 < n) :
    V2.trendNumerator (V2.arithSeq a d n)
      = d * ((n : ℝ) * ((n : ℝ) ^ 2 - 1) / 12) := by
  unfold V2.trendNumerator
  rw [length_arithSeq, trendMeanX_arith a d n hn, trendMeanY_arith a d n hn]
  have hcong : ∀ i ∈ Finset.range n,
      (((i : ℝ) + 1) - ((n : ℝ) + 1) / 2)
          * ((V2.arithSeq a d n).getD i 0 - (a + d * (((n : ℝ) - 1) / 2)))
        = d * ((i : ℝ) ^ 2 + ((1 - (n : ℝ)) * (i : ℝ) + ((1 - (n : ℝ)) / 2) ^ 2)) := by
    intro i hi
    rw [arithSeq_getD a d (Finset.mem_range.1 hi)]
    ring
  rw [Finset.sum_congr rfl hcong]
  simp only [Finset.sum_add_distrib, ← Finset.mul_sum, Finset.sum_const,
    Finset.card_range, sum_range_cast, sum_range_sq_cast, nsmul_eq_mul]
  ring

theorem trendDenomYsq_arith (a d : ℝ) (n : ℕ) (hn : 0 < n) :
    V2.trendDenomYsq (V2.arithSeq a d n)
      = d ^ 2 * ((n : ℝ) * ((n : ℝ) ^ 2 - 1) / 12) := by
  unfold V2.trendDenomYsq
  rw [length_arithSeq, trendMeanY_arith a d n hn]
  have hcong : ∀ i ∈ Finset.range n,
      ((V2.arithSeq a d n).getD i 0 - (a + d * (((n : ℝ) - 1) / 2))) ^ 2
        = d ^ 2 * ((i : ℝ) ^ 2 + ((1 - (n : ℝ)) * (i : ℝ) + ((1 - (n : ℝ)) / 2) ^ 2)) := by
    intro i hi
    rw [arithSeq_getD a d (Finset.mem_range.1 hi)]
    ring
  rw [Finset.sum_congr rfl hcong]
  simp only [Finset.sum_add_distrib, ← Finset.mul_sum, Finset.sum_const,
    Finset.card_range, sum_range_cast, sum_range_sq_cast, nsmul_eq_mul]
  ring

theorem trendSlope_arith (a d : ℝ) (n : ℕ) (hn : 4 ≤ n) :
    V2.trendSlope (V2.arithSeq a d n) = d := by
  have hn4 : (4 : ℝ) ≤ (n : ℝ) := by exact_mod_cast hn
  unfold V2.trendSlope
  rw [length_arithSeq, trendSumXY_arith, trendSumX_arith, trendSumX2_arith,
    trendSumY_arith]
  have hden : (n : ℝ) * ((n : ℝ) * ((n : ℝ) + 1) * (2 * (n : ℝ) + 1) / 6)
      - ((n : ℝ) * ((n : ℝ) + 1) / 2) * ((n : ℝ) * ((n : ℝ) + 1) / 2)
      = (n : ℝ) ^ 2 * ((n : ℝ) ^ 2 - 1) / 12 := by ring
  have hnum : (n : ℝ) * (a * ((n : ℝ) * ((n : ℝ) - 1) / 2) + (n : ℝ) * a
        + d * ((n : ℝ) * ((n : ℝ) - 1) * (2 * (n : ℝ) - 1) / 6)
        + d * ((n : ℝ) * ((n : ℝ) - 1) / 2))
      - ((n : ℝ) * ((n : ℝ) + 1) / 2)
          * ((n : ℝ) * a + d * ((n : ℝ) * ((n : ℝ) - 1) / 2))
      = d * ((n : ℝ) ^ 2 * ((n : ℝ) ^ 2 - 1) / 12) := by ring
  rw [hden, hnum]
  have hq : (n : ℝ) ^ 2 * ((n : ℝ) ^ 2 - 1) / 12 ≠ 0 := by
    have h1 : (0 : ℝ) < (n : ℝ) ^ 2 := by nlinarith
    have h2 : (0 : ℝ) < (n : ℝ) ^ 2 - 1 := by nlinarith
    positivity
  exact mul_div_cancel_right₀ d hq

theorem trendCorrelation_arith (a d : ℝ) (n : ℕ) (hn : 4 ≤ n) (hd : 0 < d) :
    V2.trendCorrelation (V2.arithSeq a d n) = 1 ∧
    V2.trendConfidence (V2.arithSeq a d n) = 100 := by
  have hn0 : 0 < n := by omega
  have hn4 : (4 : ℝ) ≤ (n : ℝ) := by exact_mod_cast hn
  have hSpos : 0 < (n : ℝ) * ((n : ℝ) ^ 2 - 1) / 12 := by
    have h1 : (0 : ℝ) < (n : ℝ) := by linarith
    have h2 : (0 : ℝ) < (n : ℝ) ^ 2 - 1 := by nlinarith
    positivity
  have hdx : V2.trendDenominatorX (V2.arithSeq a d n)
      = Real.sqrt ((n : ℝ) * ((n : ℝ) ^ 2 - 1) / 12) := by
    unfold V2.trendDenominatorX
    rw [trendDenomXsq_arith a d n hn0]
  have hdy : V2.trendDenominatorY (V2.arithSeq a d n)
      = d * Real.sqrt ((n : ℝ) * ((n : ℝ) ^ 2 - 1) / 12) := by
    unfold V2.trendDenominatorY
    rw [trendDenomYsq_arith a d n hn0]
    rw [Real.sqrt_mul (sq_nonneg d) _, Real.sqrt_sq_eq_abs, abs_of_pos hd]
  have hprod : V2.trendDenominatorX (V2.arithSeq a d n)
        * V2.trendDenominatorY (V2.arithSeq a d n)
      = d * ((n : ℝ) * ((n : ℝ) ^ 2 - 1) / 12) := by
    rw [hdx, hdy]
    rw [show Real.sqrt ((n : ℝ) * ((n : ℝ) ^ 2 - 1) / 12)
          * (d * Real.sqrt ((n : ℝ) * ((n : ℝ) ^ 2 - 1) / 12))
        = d * (Real.sqrt ((n : ℝ) * ((n : ℝ) ^ 2 - 1) / 12)
          * Real.sqrt ((n : ℝ) * ((n : ℝ) ^ 2 - 1) / 12)) from by ring]
    rw [Real.mul_self_sqrt hSpos.le]
  have hcorr : V2.trendCorrelation (V2.arithSeq a d n) = 1 := by
    unfold V2.trendCorrelation
    rw [hprod, trendNumerator_arith a d n hn0]
    rw [if_pos (mul_pos hd hSpos)]
    exact div_self (ne_of_gt (mul_pos hd hSpos))
  refine ⟨hcorr, ?_⟩
  unfold V2.trendConfidence
  rw [hcorr]
  norm_num

theorem replicate_eq_arithSeq (c : ℝ) (n : ℕ) :
    List.replicate n c = V2.arithSeq c 0 n := by
  unfold V2.arithSeq
  have h : (fun i : ℕ => c + 0 * (i : ℝ)) = fun _ : ℕ => c := by
    funext i
    ring
  rw [h, List.map_const', List.length_range]

/-- C1 (amended): an arithmetic series of length at least 4 whose common
difference is at least the 0.1 stability threshold is classified "increasing"
with confidence exactly 100, and a constant series of length at least 4 is
classified "stable".  (A strictly increasing arithmetic series with common
difference below 0.1 is instead classified "stable", see the
counterexample.) -/
theorem detectTrend_arithmetic_classification (n : ℕ) (a d c : ℝ)
    (hn : 4 ≤ n) (hd : (0.1 : ℝ) ≤ d) :
    ((V2.detectTrend (V2.arithSeq a d n) 3).trend = "increasing" ∧
      (V2.detectTrend (V2.arithSeq a d n) 3).confidence = 100) ∧
    (V2.detectTrend (List.replicate n c) 3).trend = "stable" := by
  have hd0 : (0 : ℝ) < d := by
    have : (0 : ℝ) < 0.1 := by norm_num
    linarith
  have hslope := trendSlope_arith a d n hn
  have hcc := trendCorrelation_arith a d n hn hd0
  have hnotlt : ¬ (V2.arithSeq a d n).length < 3 := by
    rw [length_arithSeq]
    omega
  refine ⟨⟨?_, ?_⟩, ?_⟩
  · unfold V2.detectTrend
    rw [if_neg hnotlt]
    dsimp only
    rw [hslope]
    rw [if_neg (by rw [abs_of_pos hd0]; linarith)]
    rw [if_pos hd0]
  · unfold V2.detectTrend
    rw [if_neg hnotlt]
    dsimp only
    exact hcc.2
  · rw [replicate_eq_arithSeq]
    have hslope0 := trendSlope_arith c 0 n hn
    have hnotlt' : ¬ (V2.arithSeq c 0 n).length < 3 := by
      rw [length_arithSeq]
      omega
    unfold V2.detectTrend
    rw [if_neg hnotlt']
    dsimp only
    rw [hslope0]
    rw [if_pos (by norm_num)]

/-- C1 counterexample: the strictly increasing arithmetic series
[0, 0.05, 0.1, 0.15] of length 4 has regression slope 0.05, below the 0.1
threshold, so detectTrend classifies it "stable", not "increasing". -/
theorem detectTrend_small_slope_counterexample :
    (V2.detectTrend [0, 0.05, 0.1, 0.15] 3).trend = "stable" ∧
    (V2.detectTrend [0, 0.05, 0.1, 0.15] 3).trend ≠ "increasing" := by
  have hslope : V2.trendSlope [0, 0.05, 0.1, 0.15] = 0.05 := by
    unfold V2.trendSlope V2.trendSumXY V2.trendSumX V2.trendSumX2 V2.trendSumY
    norm_num [Finset.sum_range_succ]
  have htrend : (V2.detectTrend [0, 0.05, 0.1, 0.15] 3).trend = "stable" := by
    unfold V2.detectTrend
    rw [if_neg (by simp)]
    dsimp only
    rw [hslope]
    rw [if_pos (by rw [abs_of_pos (by norm_num : (0 : ℝ) < 0.05)]; norm_num)]
  refine ⟨htrend, ?_⟩
  rw [htrend]
  decide

/-- C1 witness: the theorem applied at n = 4, a = 0, d = 1, c = 5. -/
theorem detectTrend_arithmetic_classification_witness :
    ((V2.detectTrend (V2.arithSeq 0 1 4) 3).trend = "increasing" ∧
      (V2.detectTrend (V2.arithSeq 0 1 4) 3).confidence = 100) ∧
    (V2.detectTrend (List.replicate 4 5) 3).trend = "stable" :=
  detectTrend_arithmetic_classification 4 0 1 5 (by norm_num) (by norm_num)
